import Mathlib

/-!
Verification of the ox-content static-site search subsystem.

The definitions below are shallow embeddings of the code in
`crates/ox_content_napi/src/lib.rs`: the JavaScript query engine embedded
as the `SSG_JS` constant (tokenizer, BM25 scoring, snippet extraction,
ranking), the NAPI glue (`search_index`, the `JsSearchOptions` conversion,
`parse_frontmatter`, the title selection of `extract_search_content`).
Floating-point arithmetic is modelled over ℚ/ℝ (JSON numbers are decimal
literals, hence exact rationals; `Math.log` becomes `Real.log`), JavaScript
strings over Lean strings (all character classes involved are in the BMP,
where JS code points and Lean chars agree), and JS `Map`/object lookups
over association lists in insertion order.  Case mapping is modelled by
`Char.toLower`, which agrees with JS `toLowerCase` on the ASCII terms the
tokenizer produces.

The index builder and the options-driven search of the `ox_content_search`
crate are not part of these sources; where a claim needs them they are
modelled from the specification and marked as such in their doc comments.
-/

namespace OxContent

/-! ### Tokenizer (embedded from the `tokenize` arrow function in `SSG_JS`) -/

/-- The CJK/Kana/Hangul character class of the tokenizer: the regex
`[一-鿿㐀-䶿぀-ゟ゠-ヿ가-힯]`. -/
def isCJK (c : Char) : Bool :=
  (0x4E00 ≤ c.toNat && c.toNat ≤ 0x9FFF) ||
  (0x3400 ≤ c.toNat && c.toNat ≤ 0x4DBF) ||
  (0x3040 ≤ c.toNat && c.toNat ≤ 0x309F) ||
  (0x30A0 ≤ c.toNat && c.toNat ≤ 0x30FF) ||
  (0xAC00 ≤ c.toNat && c.toNat ≤ 0xD7AF)

/-- The word character class of the tokenizer: the regex `[a-zA-Z0-9_]`. -/
def isWordChar (c : Char) : Bool :=
  (('a' ≤ c && c ≤ 'z') || ('A' ≤ c && c ≤ 'Z') || ('0' ≤ c && c ≤ '9') || c = '_')

/-- Lowercase an accumulation buffer and turn it into a term string. -/
def lowerBuf (buf : List Char) : String :=
  String.mk (buf.map Char.toLower)

/-- One step of the tokenizer's character scan: `r` is the emitted term
list, `c` the accumulation buffer (in order). -/
def tokenStep (acc : List String × List Char) (ch : Char) : List String × List Char :=
  let r := acc.1
  let c := acc.2
  if isCJK ch then
    ((if c ≠ [] then r ++ [lowerBuf c] else r) ++ [String.singleton ch], [])
  else if isWordChar ch then
    (r, c ++ [ch])
  else if c ≠ [] then
    (r ++ [lowerBuf c], [])
  else
    (r, c)

/-- The shared tokenizer of `SSG_JS`: left-to-right scan with an
accumulation buffer, flushing on CJK characters and non-word characters
and at end of input. -/
def tokenize (t : String) : List String :=
  let rc := t.data.foldl tokenStep ([], [])
  if rc.2 ≠ [] then rc.1 ++ [lowerBuf rc.2] else rc.1

/-- Flush a buffer at end of scan (or before a CJK character / separator):
nothing if empty, otherwise the lowercased buffer as one term. -/
def flushBuf (buf : List Char) : List String :=
  if buf = [] then [] else [lowerBuf buf]

/-- The tokenization rules exactly as the claim states them, written as a
structural recursion over the remaining input with an explicit buffer. -/
def scanSpec : List Char → List Char → List String
  | [], buf => flushBuf buf
  | ch :: rest, buf =>
    if isCJK ch then
      flushBuf buf ++ [String.singleton ch] ++ scanSpec rest []
    else if isWordChar ch then
      scanSpec rest (buf ++ [ch])
    else
      flushBuf buf ++ scanSpec rest []

/-! ### Data model of the serialized index (wire contract of §3/§6) -/

/-- Posting field tag, serialized as "Title" | "Heading" | "Body" | "Code". -/
inductive Field where
  | title
  | heading
  | body
  | code
deriving DecidableEq, Repr

/-- A posting `{doc_idx, field, tf}` of the serialized index. -/
structure Posting where
  doc_idx : Nat
  field : Field
  tf : Nat
deriving DecidableEq, Repr

/-- A stored document `{id, title, url, body}` of the serialized index. -/
structure SearchDoc where
  id : String
  title : String
  url : String
  body : String
deriving DecidableEq, Repr

/-- The serialized search index: documents, inverted index, document
frequencies, document count and average body length.  Maps are modelled as
association lists in key insertion order (the order `Object.keys`
enumerates after `JSON.parse`). -/
structure SearchIndex where
  documents : List SearchDoc
  index : List (String × List Posting)
  df : List (String × Nat)
  doc_count : Nat
  avg_dl : ℚ
deriving DecidableEq, Repr

/-- Association-list lookup (first binding wins), the model of JS object /
`Map` key lookup. -/
def lookupA {β : Type} (k : String) : List (String × β) → Option β
  | [] => none
  | (k', v) :: rest => if k' = k then some v else lookupA k rest

/-- Nat-keyed association lookup for the per-document score map. -/
def lookupN {β : Type} (k : Nat) : List (Nat × β) → Option β
  | [] => none
  | (k', v) :: rest => if k' = k then some v else lookupN k rest

/-- Whitespace trimming on both ends (the model of `str::trim` and JS
`String.prototype.trim`, over the ASCII whitespace the inputs use). -/
def strTrim (s : String) : String :=
  String.mk (((s.data.dropWhile Char.isWhitespace).reverse.dropWhile
    Char.isWhitespace).reverse)

/-- `s.startsWith pre`, over characters. -/
def strStartsWith (s pre : String) : Bool :=
  pre.data.isPrefixOf s.data

/-- Split a character list at every newline (keeping empty segments). -/
def splitNlChars : List Char → List (List Char)
  | [] => [[]]
  | c :: rest =>
    if c = '\n' then [] :: splitNlChars rest
    else
      match splitNlChars rest with
      | [] => [[c]]
      | seg :: segs => (c :: seg) :: segs

/-- Emitted terms followed by the flushed buffer. -/
def flushPair (rc : List String × List Char) : List String :=
  rc.1 ++ flushBuf rc.2

/-! ### Query-side term matching (embedded from the `search` arrow
function in `SSG_JS`; the `prefixOn` flag is the `prefix` option of the
options-driven engine of §4.5, which the embedded JS client fixes to
`true`). -/

/-- Terms matched for one query token: the last token with length ≥ 2
expands (when enabled) to every index key it starts, any other token
matches exactly, and only when present in the index. -/
def termsForToken (prefixOn : Bool) (idx : SearchIndex) (tok : String) (isLast : Bool) :
    List String :=
  if isLast && prefixOn && decide (2 ≤ tok.length) then
    (idx.index.map Prod.fst).filter (fun t => strStartsWith t tok)
  else if (lookupA tok idx.index).isSome then [tok] else []

/-- All matched terms of a token list, in scan order (`i === tokens.length - 1`
marks the last token). -/
def matchedTerms (prefixOn : Bool) (idx : SearchIndex) (tokens : List String) : List String :=
  tokens.enum.flatMap fun it => termsForToken prefixOn idx it.2 (it.1 == tokens.length - 1)

/-- Postings list of a term: `searchIndex.index[term] || []`. -/
def postsOf (idx : SearchIndex) (term : String) : List Posting :=
  (lookupA term idx.index).getD []

/-- Document frequency used by the engine: `searchIndex.df[term] || 1`
(missing and zero are both falsy in JS, so both fall back to 1). -/
def dfOf (idx : SearchIndex) (term : String) : Nat :=
  match lookupA term idx.df with
  | none => 1
  | some v => if v = 0 then 1 else v

/-! ### BM25 scoring (embedded from `SSG_JS`: `k1=1.2`, `b=0.75`,
`idf=Math.log((doc_count-df+0.5)/(df+0.5)+1)`,
`score=idf*((tf*(k1+1))/(tf+k1*(1-b+b*doc.body.length/avg_dl)))*boost`). -/

/-- BM25 `k1` constant. -/
def k1 : ℚ := 1.2

/-- BM25 `b` constant. -/
def bParam : ℚ := 0.75

/-- Argument of the logarithm in the idf: `(doc_count - df + 0.5)/(df + 0.5) + 1`. -/
def idfArg (idx : SearchIndex) (term : String) : ℚ :=
  ((idx.doc_count : ℚ) - (dfOf idx term : ℚ) + 0.5) / ((dfOf idx term : ℚ) + 0.5) + 1

/-- Term-frequency component
`(tf*(k1+1))/(tf + k1*(1 - b + b*body_length/avg_dl))`. -/
def tfComp (avg_dl : ℚ) (bodyLen tf : Nat) : ℚ :=
  ((tf : ℚ) * (k1 + 1)) / ((tf : ℚ) + k1 * (1 - bParam + bParam * (bodyLen : ℚ) / avg_dl))

/-- Field boost: 10 for Title, 5 for Heading, 1 otherwise. -/
def boost : Field → ℚ
  | Field.title => 10
  | Field.heading => 5
  | _ => 1

/-- Per-document accumulator entry `{score, matches}`; the matches set is
a list in insertion order. -/
structure Entry where
  score : ℝ
  matchSet : List String

/-- `Set.add`: append the term unless already present. -/
def addMatch (l : List String) (t : String) : List String :=
  if t ∈ l then l else l ++ [t]

/-- Add a contribution to the per-document score map: update an existing
entry in place, or append a fresh `{score: 0, matches: {}}` entry first. -/
noncomputable def addScore (acc : List (Nat × Entry)) (d : Nat) (c : ℝ) (t : String) :
    List (Nat × Entry) :=
  if (lookupN d acc).isSome then
    acc.map fun ke =>
      if ke.1 = d then (ke.1, ⟨ke.2.score + c, addMatch ke.2.matchSet t⟩) else ke
  else
    acc ++ [(d, ⟨0 + c, addMatch [] t⟩)]

/-- Process one posting: skip it when `doc_idx` has no document, otherwise
accumulate `idf * tf_component * boost` and the matched term. -/
noncomputable def scoreStep (idx : SearchIndex) (term : String) (idf : ℝ)
    (acc : List (Nat × Entry)) (p : Posting) : List (Nat × Entry) :=
  match idx.documents.get? p.doc_idx with
  | none => acc
  | some doc =>
      addScore acc p.doc_idx
        (idf * ((tfComp idx.avg_dl doc.body.length p.tf : ℚ) : ℝ) * ((boost p.field : ℚ) : ℝ))
        term

/-- The idf actually multiplied into every contribution of a term. -/
noncomputable def idfOf (idx : SearchIndex) (term : String) : ℝ :=
  Real.log ((idfArg idx term : ℚ) : ℝ)

/-- The per-document score map after processing every matched term's
postings, in first-touch insertion order. -/
noncomputable def scoresMap (prefixOn : Bool) (idx : SearchIndex) (tokens : List String) :
    List (Nat × Entry) :=
  (matchedTerms prefixOn idx tokens).foldl
    (fun acc term => (postsOf idx term).foldl (scoreStep idx term (idfOf idx term)) acc) []

/-! ### Snippet extraction (embedded from the result-assembly part of the
`search` arrow function in `SSG_JS`). -/

/-- First index at which `p` occurs as a contiguous sublist of the
remaining input: the model of JS `String.indexOf` (which returns -1,
modelled as `none`, when absent, and 0 on the empty pattern). -/
def findSub (p : List Char) : List Char → Option Nat
  | [] => if List.isPrefixOf p [] then some 0 else none
  | c :: rest =>
    if List.isPrefixOf p (c :: rest) then some 0
    else (findSub p rest).map (· + 1)

/-- `hay.indexOf(pat)` on strings, as a character index. -/
def indexOfSub (hay pat : String) : Option Nat :=
  findSub pat.data hay.data

/-- `String.prototype.toLowerCase`, modelled for the ASCII range. -/
def lowerStr (s : String) : String :=
  String.mk (s.data.map Char.toLower)

/-- `body.slice(st, en)` as character indices. -/
def strSlice (s : String) (st en : Nat) : String :=
  String.mk ((s.data.drop st).take (en - st))

/-- The `-1`-sentinel fold computing the earliest match position:
`if(pos!==-1&&(fp===-1||pos<fp))fp=pos`. -/
def earliestFold (bl : String) (ms : List String) (fp0 : Int) : Int :=
  ms.foldl
    (fun fp m =>
      match indexOfSub bl m with
      | some pos => if fp = -1 ∨ (pos : Int) < fp then (pos : Int) else fp
      | none => fp)
    fp0

/-- Snippet construction of `SSG_JS`: empty for an empty (falsy) body;
otherwise a window `[max(0, fp-50), min(len, start+150))` of the body
around the earliest case-insensitive match position `fp` (which stays
`-1` when no matched term occurs in the body), with `...` affixes when
the window is a proper prefix/suffix. -/
def snippetJs (body : String) (ms : List String) : String :=
  if body = "" then ""
  else
    let bl := lowerStr body
    let fp : Int := earliestFold bl ms (-1)
    let st : Nat := (max 0 (fp - 50)).toNat
    let en : Nat := min body.length (st + 150)
    let snip := strSlice body st en
    let snip := if 0 < st then "..." ++ snip else snip
    if en < body.length then snip ++ "..." else snip

/-- Earliest case-insensitive match position of any matched term in the
body, as an `Option`: the claim-side reading of the `-1` sentinel. -/
def earliestMatch (body : String) (ms : List String) : Option Nat :=
  ms.foldl
    (fun best m =>
      match indexOfSub (lowerStr body) m with
      | some pos =>
          match best with
          | none => some pos
          | some b => some (min b pos)
      | none => best)
    none

/-- The snippet as the claim describes it, amended in the no-match case:
when no matched term occurs in a non-empty body, the window is the one a
match position of `-1` induces, i.e. it starts at 0 (claimed: empty
snippet). -/
def snippetAmended (body : String) (ms : List String) : String :=
  if body = "" then ""
  else
    let st : Nat :=
      match earliestMatch body ms with
      | none => 0
      | some fp => fp - 50
    let en : Nat := min body.length (st + 150)
    let core := strSlice body st en
    let withPre := if 0 < st then "..." ++ core else core
    if en < body.length then withPre ++ "..." else withPre

/-! ### Result assembly, ranking and truncation of the embedded client. -/

/-- A result row of the embedded JS client: `{...doc, score, snippet}`
(the spread copies `id`, `title`, `url` and `body` from the stored
document). -/
structure ResultJs where
  id : String
  title : String
  url : String
  body : String
  score : ℝ
  snippet : String

/-- Turn the score map into result rows, in map insertion order. -/
noncomputable def entryResults (idx : SearchIndex) (acc : List (Nat × Entry)) :
    List ResultJs :=
  acc.filterMap fun de =>
    (idx.documents.get? de.1).map fun doc =>
      ⟨doc.id, doc.title, doc.url, doc.body, de.2.score, snippetJs doc.body de.2.matchSet⟩

/-- Stable descending insertion by a real-valued key: the element moves
past exactly the earlier elements with strictly larger key, so equal keys
keep their original order — the semantics of the stable JS
`sort((a,b)=>b.score-a.score)`. -/
noncomputable def insDesc {α : Type} (key : α → ℝ) (x : α) : List α → List α
  | [] => [x]
  | y :: ys => if key x < key y then y :: insDesc key x ys else x :: y :: ys

/-- Stable sort by descending key. -/
noncomputable def sortByDesc {α : Type} (key : α → ℝ) : List α → List α
  | [] => []
  | x :: xs => insDesc key x (sortByDesc key xs)

/-- The embedded JS search client: tokenize, match (prefix expansion
always on), score, rank and keep the first 10 results.  A query that is
all whitespace, or yields no tokens, returns no results. -/
noncomputable def searchJs (idx : SearchIndex) (q : String) : List ResultJs :=
  if strTrim q = "" then []
  else
    let tokens := tokenize q
    if tokens = [] then []
    else ((sortByDesc ResultJs.score (entryResults idx (scoresMap true idx tokens))).take 10)

/-! ### Search options (embedded from `JsSearchOptions` and
`impl From<JsSearchOptions> for SearchOptions` in `lib.rs`). -/

/-- Engine options.  The `SearchOptions` struct is declared in the
`ox_content_search` crate; its shape `{limit, prefix, fuzzy, threshold}`
is fixed by the conversion in `lib.rs` and by §4.5.  The Rust field
`prefix` is called `prefixOn` here. -/
structure SearchOptions where
  limit : Nat
  prefixOn : Bool
  fuzzy : Bool
  threshold : ℚ
deriving DecidableEq, Repr

/-- Caller-supplied options, every field optional. -/
structure JsSearchOptions where
  limit : Option Nat
  prefixOn : Option Bool
  fuzzy : Option Bool
  threshold : Option ℚ
deriving DecidableEq, Repr

/-- The `From<JsSearchOptions>` conversion: absent fields become
`limit=10`, `prefix=true`, `fuzzy=false`, `threshold=0.0`. -/
def searchOptionsFromJs (o : JsSearchOptions) : SearchOptions :=
  { limit := o.limit.getD 10
    prefixOn := o.prefixOn.getD true
    fuzzy := o.fuzzy.getD false
    threshold := o.threshold.getD 0 }

/-- Modelled from the spec: the `Default` instance of `SearchOptions`
lives in the `ox_content_search` crate, absent from these sources; §4.5
fixes the defaults `limit=10`, `prefix=true`, `fuzzy=false`,
`threshold=0.0`. -/
def defaultSearchOptions : SearchOptions :=
  ⟨10, true, false, 0⟩

/-! ### The options-driven query engine (§4.5). -/

/-- A surviving candidate before snippet assembly: the scored document
with its matched-term set. -/
structure Cand where
  doc : SearchDoc
  score : ℝ
  matchSet : List String

/-- A result row `{id, title, url, score, matches, snippet}` of the
options-driven engine (§3). -/
structure ResultSpec where
  id : String
  title : String
  url : String
  score : ℝ
  matchSet : List String
  snippet : String

/-- Scored candidates of a query, in score-map insertion order. -/
noncomputable def candidatesSpec (idx : SearchIndex) (prefixOn : Bool)
    (tokens : List String) : List Cand :=
  (scoresMap prefixOn idx tokens).filterMap fun de =>
    (idx.documents.get? de.1).map fun doc => ⟨doc, de.2.score, de.2.matchSet⟩

/-- Modelled from the spec: snippet rule of §4.5 step 6 — empty when no
matched term occurs in the body, otherwise the same window as
`snippetJs`. -/
def snippetSpec (body : String) (ms : List String) : String :=
  match earliestMatch body ms with
  | none => ""
  | some fp =>
      let st : Nat := fp - 50
      let en : Nat := min body.length (st + 150)
      let core := strSlice body st en
      let withPre := if 0 < st then "..." ++ core else core
      if en < body.length then withPre ++ "..." else withPre

/-- Modelled from the spec: `SearchIndex::search` of the
`ox_content_search` crate is absent from these sources.  §4.5 prescribes:
tokenize with the shared tokenizer, exact-match every token but the last,
expand the last token over index terms when `prefix` is enabled and the
token has length ≥ 2, score with the same BM25 formula and boosts as the
embedded client, drop documents scoring below `threshold`, sort by score
descending (stable), truncate to `limit`, then attach snippets.  The
`fuzzy` option's algorithm is explicitly left open by §9 and is not
modelled. -/
noncomputable def searchSpec (idx : SearchIndex) (q : String) (o : SearchOptions) :
    List ResultSpec :=
  let tokens := tokenize q
  if tokens = [] then []
  else
    let kept := (candidatesSpec idx o.prefixOn tokens).filter
      fun c => decide ((o.threshold : ℝ) ≤ c.score)
    ((sortByDesc Cand.score kept).take o.limit).map fun c =>
      ⟨c.doc.id, c.doc.title, c.doc.url, c.score, c.matchSet, snippetSpec c.doc.body c.matchSet⟩

/-- The candidates of a query that survive the threshold filter (the
list `searchSpec` sorts and truncates). -/
noncomputable def keptCands (idx : SearchIndex) (q : String) (o : SearchOptions) :
    List Cand :=
  (candidatesSpec idx o.prefixOn (tokenize q)).filter
    fun c => decide ((o.threshold : ℝ) ≤ c.score)

/-- The result row a surviving candidate becomes. -/
noncomputable def resRow (c : Cand) : ResultSpec :=
  ⟨c.doc.id, c.doc.title, c.doc.url, c.score, c.matchSet, snippetSpec c.doc.body c.matchSet⟩

/-- The NAPI entry point `search_index`: a serialized index that fails to
deserialize yields the empty result list (`let Ok(index) = ... else
return Vec::new()`); otherwise the engine runs with the caller's options,
absent ones defaulted.  The JSON deserializer itself lives outside these
sources, so the entry point takes its outcome as input. -/
noncomputable def searchIndexEntry (parsed : Except String SearchIndex) (q : String)
    (options : Option JsSearchOptions) : List ResultSpec :=
  match parsed with
  | Except.error _ => []
  | Except.ok idx => searchSpec idx q ((options.map searchOptionsFromJs).getD defaultSearchOptions)

/-! ### Index builder (§4.2, exercised by `build_search_index`). -/

/-- A full input document `{id, title, url, body, headings, code}`. -/
structure SearchDocument where
  id : String
  title : String
  url : String
  body : String
  headings : List String
  code : List String
deriving DecidableEq, Repr

/-- The four indexed fields of a document, each with its tag. -/
def fieldTexts (d : SearchDocument) : List (Field × String) :=
  [(Field.title, d.title)] ++ d.headings.map (fun h => (Field.heading, h)) ++
    [(Field.body, d.body)] ++ d.code.map (fun c => (Field.code, c))

/-- Record one term occurrence: bump the `(term, doc, field)` posting's
`tf`, creating term entries and postings in first-encounter order. -/
def bumpPosting (index : List (String × List Posting)) (term : String) (d : Nat)
    (f : Field) : List (String × List Posting) :=
  match index with
  | [] => [(term, [⟨d, f, 1⟩])]
  | (t, ps) :: rest =>
    if t = term then
      if ps.any fun p => p.doc_idx = d ∧ p.field = f then
        (t, ps.map fun p => if p.doc_idx = d ∧ p.field = f then ⟨p.doc_idx, p.field, p.tf + 1⟩ else p) :: rest
      else
        (t, ps ++ [⟨d, f, 1⟩]) :: rest
    else
      (t, ps) :: bumpPosting rest term d f

/-- Index all terms of one document. -/
def addDocTerms (index : List (String × List Posting)) (d : Nat)
    (doc : SearchDocument) : List (String × List Posting) :=
  (fieldTexts doc).foldl
    (fun ix ft => (tokenize ft.2).foldl (fun ix' term => bumpPosting ix' term d ft.1) ix)
    index

/-- Modelled from the spec: `SearchIndexBuilder` of the
`ox_content_search` crate is absent from these sources.  §4.2/§3:
documents keep their `add_document` order and dense indices; every field
is tokenized with the shared tokenizer, repeated occurrences aggregate
into one posting per `(term, doc, field)` with a running `tf`; `df` is the
number of distinct documents under each term; `avg_dl` is the mean
character count of the bodies. -/
def buildIndex (docs : List SearchDocument) : SearchIndex :=
  let index := (docs.enum).foldl (fun ix dd => addDocTerms ix dd.1 dd.2) []
  { documents := docs.map fun d => ⟨d.id, d.title, d.url, d.body⟩
    index := index
    df := index.map fun tp => (tp.1, ((tp.2.map Posting.doc_idx).dedup).length)
    doc_count := docs.length
    avg_dl := if docs.length = 0 then 0
              else ((docs.map fun d => (d.body.length : ℚ)).sum) / (docs.length : ℚ) }

/-! ### Frontmatter parsing (embedded from `parse_frontmatter` in
`lib.rs`) and the title selection of `extract_search_content`. -/

/-- Numeric value of a digit string. -/
def natOfDigits (ds : List Char) : Nat :=
  ds.foldl (fun a c => a * 10 + (c.toNat - 48)) 0

/-- Whether `value_str.parse::<i64>()` succeeds: an optional sign, one or
more ASCII digits, and a value within the i64 range. -/
def parseI64Ok (s : String) : Bool :=
  let cs := s.data
  let neg := match cs with | '-' :: _ => true | _ => false
  let ds := match cs with | '+' :: r => r | '-' :: r => r | r => r
  ds ≠ [] && ds.all Char.isDigit &&
    (if neg then natOfDigits ds ≤ 2 ^ 63 else natOfDigits ds < 2 ^ 63)

/-- Shape of a string accepted by `value_str.parse::<f64>()`: one of the
keywords `inf`/`infinity`/`nan` (non-finite), or a decimal number of
exact value `m * 10^e`. -/
inductive F64Lit where
  | special
  | num (m : Nat) (e : Int)
deriving DecidableEq, Repr

/-- Exponent part of a float literal (`(e|E) Sign? Digit+`, or nothing). -/
def parseF64Exp (m : Nat) (shift : Int) (rest : List Char) : Option F64Lit :=
  match rest with
  | [] => some (F64Lit.num m shift)
  | c :: r =>
    if c = 'e' ∨ c = 'E' then
      let sgn : Int := match r with | '-' :: _ => -1 | _ => 1
      let r1 := match r with | '+' :: t => t | '-' :: t => t | t => t
      let ed := r1.takeWhile Char.isDigit
      let r2 := r1.dropWhile Char.isDigit
      if ed = [] ∨ r2 ≠ [] then none
      else some (F64Lit.num m (shift + sgn * (natOfDigits ed : Int)))
    else none

/-- The grammar of `f64::from_str`: `Sign? (inf | infinity | nan | Number)`
with the keywords case-insensitive, `Number ::= Digit+ ('.' Digit*)? Exp?
| '.' Digit+ Exp?`.  The sign does not affect finiteness. -/
def parseF64Lit (s : String) : Option F64Lit :=
  let cs := s.data
  let cs1 := match cs with | '+' :: r => r | '-' :: r => r | r => r
  let low := cs1.map Char.toLower
  if low = "inf".data ∨ low = "infinity".data ∨ low = "nan".data then some F64Lit.special
  else
    let d1 := cs1.takeWhile Char.isDigit
    let r1 := cs1.dropWhile Char.isDigit
    match r1 with
    | '.' :: r2 =>
      let d2 := r2.takeWhile Char.isDigit
      let r3 := r2.dropWhile Char.isDigit
      if d1 = [] ∧ d2 = [] then none
      else parseF64Exp (natOfDigits (d1 ++ d2)) (-(d2.length : Int)) r3
    | _ => if d1 = [] then none else parseF64Exp (natOfDigits d1) 0 r1

/-- Whether the exact value `m * 10^e` rounds to an f64 infinity (so that
`serde_json::Number::from_f64` rejects it): under round-to-nearest-even
this happens exactly when the magnitude reaches `2^1024 - 2^970`.  The
digit-count bounds keep the exact comparison to the narrow band where it
is needed. -/
def decIsInf (m : Nat) (e : Int) : Bool :=
  if m = 0 then false
  else
    let d : Nat := Nat.log 10 m + 1
    if (309 : Int) ≤ (d : Int) - 1 + e then true
    else if (d : Int) + e ≤ 308 then false
    else if 0 ≤ e then decide (2 ^ 1024 - 2 ^ 970 ≤ m * 10 ^ e.toNat)
    else decide ((2 ^ 1024 - 2 ^ 970) * 10 ^ (-e).toNat ≤ m)

/-- The shape of a frontmatter value: booleans, numbers (whose numeric
value never reaches the title logic, since `Value::as_str` is `None` on
them) and strings. -/
inductive JsonVal where
  | vBool (b : Bool)
  | vNum
  | vStr (s : String)
deriving DecidableEq, Repr

/-- `str::trim_matches(c)`: strip every leading and trailing `c`. -/
def trimMatchesChar (c : Char) (s : String) : String :=
  String.mk (((s.data.dropWhile (· = c)).reverse.dropWhile (· = c)).reverse)

/-- The single-quote character (written by code point to keep the source
free of quote-escape literals). -/
def squote : Char := Char.ofNat 39

/-- Classification of a frontmatter value string, following the branch
order of `parse_frontmatter`: `true`/`false`, then `i64`, then finite
`f64` (a float that parses but is not finite falls back to the *unquoted*
string), then the quote-trimmed string. -/
def classifyValue (v : String) : JsonVal :=
  if v = "true" then JsonVal.vBool true
  else if v = "false" then JsonVal.vBool false
  else if parseI64Ok v then JsonVal.vNum
  else
    match parseF64Lit v with
    | some F64Lit.special => JsonVal.vStr v
    | some (F64Lit.num m e) => if decIsInf m e then JsonVal.vStr v else JsonVal.vNum
    | none => JsonVal.vStr (trimMatchesChar squote (trimMatchesChar '"' v))

/-- `str::lines`: split on newlines, dropping a final empty segment and a
trailing carriage return on each line. -/
def rustLines (s : String) : List String :=
  let parts := splitNlChars s.data
  let parts := if parts.getLast? = some [] then parts.dropLast else parts
  parts.map fun l =>
    String.mk (if l.getLast? = some '\r' then l.dropLast else l)

/-- `HashMap::insert`: replace the binding if the key exists, else add it. -/
def insertAssoc (m : List (String × JsonVal)) (k : String) (v : JsonVal) :
    List (String × JsonVal) :=
  match m with
  | [] => [(k, v)]
  | kv :: rest => if kv.1 = k then (k, v) :: rest else kv :: insertAssoc rest k v

/-- Drop the first `n` characters. -/
def strDrop (s : String) (n : Nat) : String :=
  String.mk (s.data.drop n)

/-- Keep the first `n` characters. -/
def strTake (s : String) (n : Nat) : String :=
  String.mk (s.data.take n)

/-- `str::trim_start_matches('\n')`. -/
def trimLeadNl (s : String) : String :=
  String.mk (s.data.dropWhile (· = '\n'))

/-- `parse_frontmatter`: returns `(content, frontmatter)`.  Without a
leading `---` or a closing `\n---` the whole source is content and the
map is empty; otherwise each `key: value` line between the delimiters is
classified and inserted. -/
def parse_frontmatter (source : String) : String × List (String × JsonVal) :=
  if ¬ strStartsWith source "---" then (source, [])
  else
    let rest := strDrop source 3
    match indexOfSub rest "\n---" with
    | none => (source, [])
    | some endPos =>
      let fmStr := trimLeadNl (strTake rest endPos)
      let content := trimLeadNl (strDrop rest (endPos + 4))
      let fm := (rustLines fmStr).foldl
        (fun acc rawLine =>
          let line := strTrim rawLine
          if line = "" ∨ strStartsWith line "#" then acc
          else
            match indexOfSub line ":" with
            | none => acc
            | some colonPos =>
              let key := strTrim (strTake line colonPos)
              let vstr := strTrim (strDrop line (colonPos + 1))
              insertAssoc acc key (classifyValue vstr))
        []
      (content, fm)

/-- `serde_json::Value::as_str`. -/
def JsonVal.asStr : JsonVal → Option String
  | JsonVal.vStr s => some s
  | _ => none

/-- `frontmatter.get("title").and_then(|v| v.as_str()).map(String::from)`
as computed by `extract_search_content`. -/
def frontmatterTitle (source : String) : Option String :=
  (lookupA "title" (parse_frontmatter source).2).bind JsonVal.asStr

/-- The title selection of `extract_search_content` on the
successful-parse path:
`frontmatter_title.unwrap_or_else(|| indexer.title()...unwrap_or_default())`.
The Markdown parser and the `DocumentIndexer` live in other crates, so
the indexer's title (the first heading's text, per §4.1) enters as a
parameter. -/
def extractTitle (source : String) (indexerTitle : Option String) : String :=
  (frontmatterTitle source).getD (indexerTitle.getD "")

/-! ### Derived notions used by the statements below. -/

/-- The running score of a document in the accumulator (0 before its
first contribution). -/
noncomputable def entryScore (acc : List (Nat × Entry)) (d : Nat) : ℝ :=
  ((lookupN d acc).map Entry.score).getD 0

/-- The contribution one posting adds under a fixed idf (0 when its
`doc_idx` has no document). -/
noncomputable def postContrib (idx : SearchIndex) (idf : ℝ) (p : Posting) : ℝ :=
  match idx.documents.get? p.doc_idx with
  | none => 0
  | some doc =>
      idf * ((tfComp idx.avg_dl doc.body.length p.tf : ℚ) : ℝ) * ((boost p.field : ℚ) : ℝ)

/-- The contribution of one `(matched term, posting)` pair. -/
noncomputable def contrib (idx : SearchIndex) (tp : String × Posting) : ℝ :=
  postContrib idx (idfOf idx tp.1) tp.2

/-- Every `(matched term, posting)` pair the engine processes, in
processing order. -/
def matchedTermPostings (prefixOn : Bool) (idx : SearchIndex) (tokens : List String) :
    List (String × Posting) :=
  (matchedTerms prefixOn idx tokens).flatMap fun t => (postsOf idx t).map fun p => (t, p)

/-- The `-1` sentinel encoding of an optional match position. -/
def encOpt : Option Nat → Int
  | none => -1
  | some n => (n : Int)

/-- First document of the ranking example of §8. -/
def docA : SearchDocument :=
  ⟨"a", "Install Guide", "/a", "run the installer", [], []⟩

/-- Second document of the ranking example of §8. -/
def docB : SearchDocument :=
  ⟨"b", "Overview", "/b", "install dependencies first", [], []⟩

/-- The index the spec-modelled builder produces for the two-document
corpus `[docA, docB]` (proved below). -/
def c9Idx : SearchIndex :=
  { documents :=
      [⟨"a", "Install Guide", "/a", "run the installer"⟩,
       ⟨"b", "Overview", "/b", "install dependencies first"⟩]
    index :=
      [("install", [⟨0, Field.title, 1⟩, ⟨1, Field.body, 1⟩]),
       ("guide", [⟨0, Field.title, 1⟩]),
       ("run", [⟨0, Field.body, 1⟩]),
       ("the", [⟨0, Field.body, 1⟩]),
       ("installer", [⟨0, Field.body, 1⟩]),
       ("overview", [⟨1, Field.title, 1⟩]),
       ("dependencies", [⟨1, Field.body, 1⟩]),
       ("first", [⟨1, Field.body, 1⟩])]
    df := [("install", 2), ("guide", 1), ("run", 1), ("the", 1), ("installer", 1),
           ("overview", 1), ("dependencies", 1), ("first", 1)]
    doc_count := 2
    avg_dl := 43 / 2 }

/-! ## Theorems -/

theorem tokenize_eq_flushPair (t : String) :
    tokenize t = flushPair (t.data.foldl tokenStep ([], [])) := by
  unfold tokenize flushPair flushBuf
  by_cases h : (t.data.foldl tokenStep ([], [])).2 = [] <;> simp [h]

/-- Scan lemma: folding `tokenStep` from any state `(r, c)` and flushing
at the end emits `r` followed by the claim-side scan of the rest of the
input started with buffer `c`. -/
theorem foldl_tokenStep_eq (l : List Char) :
    ∀ r c, flushPair (l.foldl tokenStep (r, c)) = r ++ scanSpec l c := by
  induction l with
  | nil =>
    intro r c
    simp [flushPair, scanSpec]
  | cons ch rest ih =>
    intro r c
    simp only [List.foldl_cons, scanSpec, tokenStep]
    by_cases hc : isCJK ch
    · by_cases hbuf : c = [] <;>
        simp [hc, hbuf, ih, flushBuf, List.append_assoc]
    · by_cases hw : isWordChar ch
      · simp [hc, hw, ih]
      · by_cases hbuf : c = [] <;>
          simp [hc, hw, hbuf, ih, flushBuf, List.append_assoc]

theorem lookupN_append_some {β : Type} {d : Nat} {l1 : List (Nat × β)} {v : β}
    (h : lookupN d l1 = some v) (l2 : List (Nat × β)) :
    lookupN d (l1 ++ l2) = some v := by
  induction l1 with
  | nil => simp [lookupN] at h
  | cons kv rest ih =>
    by_cases hk : kv.1 = d
    · simp only [lookupN, hk, if_true] at h ⊢
      exact h
    · simp only [lookupN, hk, if_false] at h ⊢
      exact ih h

theorem lookupN_append_none {β : Type} {d : Nat} {l1 : List (Nat × β)}
    (h : lookupN d l1 = none) (l2 : List (Nat × β)) :
    lookupN d (l1 ++ l2) = lookupN d l2 := by
  induction l1 with
  | nil => rfl
  | cons kv rest ih =>
    by_cases hk : kv.1 = d
    · simp [lookupN, hk] at h
    · simp only [lookupN, hk, if_false] at h
      simp only [List.cons_append, lookupN, hk, if_false]
      exact ih h

theorem lookupN_addScore_map (acc : List (Nat × Entry)) (d d' : Nat) (c : ℝ) (t : String) :
    lookupN d (acc.map fun ke =>
        if ke.1 = d' then (ke.1, ⟨ke.2.score + c, addMatch ke.2.matchSet t⟩) else ke)
      = (lookupN d acc).map fun e =>
          if d = d' then ⟨e.score + c, addMatch e.matchSet t⟩ else e := by
  induction acc with
  | nil => simp [lookupN]
  | cons kv rest ih =>
    obtain ⟨k, v⟩ := kv
    simp only [List.map_cons]
    by_cases hk : k = d'
    · rw [if_pos (show (k, v).1 = d' from hk)]
      by_cases hd : k = d
      · simp only [lookupN, hd, eq_self_iff_true, if_true, Option.map_some, Option.map_some']
        rw [if_pos (hd.symm.trans hk)]
      · simp only [lookupN, if_neg hd, ih]
    · rw [if_neg (show ¬ (k, v).1 = d' from hk)]
      by_cases hd : k = d
      · simp only [lookupN, hd, eq_self_iff_true, if_true, Option.map_some, Option.map_some']
        rw [if_neg (fun h => hk (hd.trans h))]
      · simp only [lookupN, if_neg hd, ih]

theorem entryScore_addScore (acc : List (Nat × Entry)) (d' : Nat) (c : ℝ) (t : String)
    (d : Nat) :
    entryScore (addScore acc d' c t) d = entryScore acc d + if d' = d then c else 0 := by
  unfold addScore
  by_cases h : (lookupN d' acc).isSome
  · simp only [h, if_true]
    unfold entryScore
    rw [lookupN_addScore_map]
    rcases hl : lookupN d acc with _ | e
    · by_cases hdd : d' = d
      · subst hdd
        rw [hl] at h
        simp at h
      · simp [hdd]
    · by_cases hdd : d' = d
      · subst hdd
        simp
      · have hdd2 : ¬ d = d' := fun hh => hdd hh.symm
        simp [hdd, hdd2]
  · have hnone : lookupN d' acc = none := by
      rcases hl : lookupN d' acc with _ | e
      · rfl
      · rw [hl] at h
        simp at h
    simp only [hnone, Option.isSome_none, Bool.false_eq_true, if_false]
    unfold entryScore
    by_cases hdd : d' = d
    · subst hdd
      rw [lookupN_append_none hnone]
      simp [hnone, lookupN]
    · rcases hl : lookupN d acc with _ | e
      · rw [lookupN_append_none hl]
        simp [hl, lookupN, hdd]
      · rw [lookupN_append_some hl]
        simp [hl, hdd]

theorem entryScore_scoreStep (idx : SearchIndex) (term : String) (idf : ℝ)
    (acc : List (Nat × Entry)) (p : Posting) (d : Nat) :
    entryScore (scoreStep idx term idf acc p) d
      = entryScore acc d + if p.doc_idx = d then postContrib idx idf p else 0 := by
  unfold scoreStep postContrib
  rcases hdoc : idx.documents.get? p.doc_idx with _ | doc
  · simp
  · rw [entryScore_addScore]

theorem entryScore_foldl_posts (idx : SearchIndex) (term : String) (idf : ℝ)
    (ps : List Posting) :
    ∀ (acc : List (Nat × Entry)) (d : Nat),
      entryScore (ps.foldl (scoreStep idx term idf) acc) d
        = entryScore acc d
          + (((ps.filter fun p => p.doc_idx == d).map (postContrib idx idf)).sum) := by
  induction ps with
  | nil => intro acc d; simp
  | cons p ps ih =>
    intro acc d
    rw [List.foldl_cons, ih, entryScore_scoreStep]
    by_cases h : p.doc_idx = d
    · simp [h, add_assoc]
    · simp [h]

theorem entryScore_terms_foldl (idx : SearchIndex) (terms : List String) :
    ∀ (acc : List (Nat × Entry)) (d : Nat),
      entryScore
          (terms.foldl
            (fun a term => (postsOf idx term).foldl (scoreStep idx term (idfOf idx term)) a)
            acc) d
        = entryScore acc d
          + ((((terms.flatMap fun tt => (postsOf idx tt).map fun p => (tt, p)).filter
                fun tp => tp.2.doc_idx == d).map (contrib idx)).sum) := by
  induction terms with
  | nil => intro acc d; simp
  | cons tt ts ih =>
    intro acc d
    rw [List.foldl_cons, ih, entryScore_foldl_posts]
    rw [List.flatMap_cons, List.filter_append, List.map_append, List.sum_append, ← add_assoc]
    congr 1
    rw [List.filter_map, List.map_map]
    congr 1

theorem entryScore_scoresMap (prefixOn : Bool) (idx : SearchIndex) (tokens : List String)
    (d : Nat) :
    entryScore (scoresMap prefixOn idx tokens) d
      = (((matchedTermPostings prefixOn idx tokens).filter
            fun tp => tp.2.doc_idx == d).map (contrib idx)).sum := by
  unfold scoresMap matchedTermPostings
  rw [entryScore_terms_foldl]
  simp [entryScore, lookupN]

theorem insDesc_perm {α : Type} (key : α → ℝ) (x : α) :
    ∀ l : List α, (insDesc key x l).Perm (x :: l) := by
  intro l
  induction l with
  | nil => simp [insDesc]
  | cons y ys ih =>
    unfold insDesc
    by_cases h : key x < key y
    · simp only [h, if_true]
      exact (ih.cons y).trans (List.Perm.swap x y ys)
    · simp [h]

theorem sortByDesc_perm {α : Type} (key : α → ℝ) :
    ∀ l : List α, (sortByDesc key l).Perm l := by
  intro l
  induction l with
  | nil => simp [sortByDesc]
  | cons x xs ih =>
    unfold sortByDesc
    exact (insDesc_perm key x (sortByDesc key xs)).trans (ih.cons x)

theorem insDesc_pairwise {α : Type} (key : α → ℝ) (x : α) :
    ∀ l : List α, l.Pairwise (fun a b => key b ≤ key a) →
      (insDesc key x l).Pairwise (fun a b => key b ≤ key a) := by
  intro l
  induction l with
  | nil => intro _; simp [insDesc]
  | cons y ys ih =>
    intro h
    rw [List.pairwise_cons] at h
    unfold insDesc
    by_cases hxy : key x < key y
    · simp only [hxy, if_true]
      rw [List.pairwise_cons]
      constructor
      · intro z hz
        rcases List.mem_cons.mp (((insDesc_perm key x ys).mem_iff).mp hz) with hz' | hz'
        · rw [hz']
          exact le_of_lt hxy
        · exact h.1 z hz'
      · exact ih h.2
    · simp only [hxy, if_false]
      rw [List.pairwise_cons]
      refine ⟨?_, List.pairwise_cons.mpr h⟩
      intro z hz
      rcases List.mem_cons.mp hz with hz' | hz'
      · rw [hz']
        exact not_lt.mp hxy
      · exact le_trans (h.1 z hz') (not_lt.mp hxy)

theorem sortByDesc_pairwise {α : Type} (key : α → ℝ) :
    ∀ l : List α, (sortByDesc key l).Pairwise (fun a b => key b ≤ key a) := by
  intro l
  induction l with
  | nil => simp [sortByDesc]
  | cons x xs ih =>
    unfold sortByDesc
    exact insDesc_pairwise key x _ ih

theorem insDesc_of_le {α : Type} (key : α → ℝ) (x : α) (l : List α)
    (h : ∀ z ∈ l, key z ≤ key x) : insDesc key x l = x :: l := by
  cases l with
  | nil => rfl
  | cons y ys =>
    unfold insDesc
    rw [if_neg (not_lt.mpr (h y (List.mem_cons_self y ys)))]

theorem sortByDesc_of_pairwise {α : Type} (key : α → ℝ) :
    ∀ l : List α, l.Pairwise (fun a b => key b ≤ key a) → sortByDesc key l = l := by
  intro l
  induction l with
  | nil => intro _; rfl
  | cons x xs ih =>
    intro h
    rw [List.pairwise_cons] at h
    unfold sortByDesc
    rw [ih h.2, insDesc_of_le key x xs h.1]

theorem map_snd_insDesc {α : Type} (key : α → ℝ) :
    ∀ (D : List (Nat × α)) (p : Nat × α),
      (insDesc (fun q => key q.2) p D).map Prod.snd = insDesc key p.2 (D.map Prod.snd) := by
  intro D
  induction D with
  | nil => intro p; rfl
  | cons y D ih =>
    intro p
    rw [List.map_cons]
    unfold insDesc
    by_cases h : key p.2 < key y.2
    · rw [if_pos h, if_pos h, List.map_cons, ih]
    · rw [if_neg h, if_neg h]
      rfl

theorem sortByDesc_enumFrom_snd {α : Type} (key : α → ℝ) :
    ∀ (l : List α) (n : Nat),
      (sortByDesc (fun q => key q.2) (l.enumFrom n)).map Prod.snd = sortByDesc key l := by
  intro l
  induction l with
  | nil => intro n; rfl
  | cons x xs ih =>
    intro n
    show (sortByDesc (fun q => key q.2) ((n, x) :: xs.enumFrom (n + 1))).map Prod.snd
      = sortByDesc key (x :: xs)
    unfold sortByDesc
    rw [map_snd_insDesc, ih]

theorem mem_enumFrom_le {α : Type} :
    ∀ (l : List α) (n : Nat) (q : Nat × α), q ∈ l.enumFrom n → n ≤ q.1 := by
  intro l
  induction l with
  | nil => intro n q hq; simp [List.enumFrom] at hq
  | cons x xs ih =>
    intro n q hq
    rcases List.mem_cons.mp hq with h | h
    · rw [h]
    · exact Nat.le_of_succ_le (ih (n + 1) q h)

theorem insDesc_pairwise_lex {α : Type} (key : α → ℝ) :
    ∀ (D : List (Nat × α)) (p : Nat × α),
      D.Pairwise (fun a b => key b.2 < key a.2 ∨ (key a.2 = key b.2 ∧ a.1 < b.1)) →
      (∀ q ∈ D, p.1 < q.1) →
      (insDesc (fun q => key q.2) p D).Pairwise
        (fun a b => key b.2 < key a.2 ∨ (key a.2 = key b.2 ∧ a.1 < b.1)) := by
  intro D
  induction D with
  | nil =>
    intro p _ _
    simp [insDesc]
  | cons y D ih =>
    intro p h hidx
    rw [List.pairwise_cons] at h
    unfold insDesc
    by_cases hk : key p.2 < key y.2
    · rw [if_pos hk, List.pairwise_cons]
      constructor
      · intro z hz
        rcases List.mem_cons.mp (((insDesc_perm _ p D).mem_iff).mp hz) with hz' | hz'
        · rw [hz']
          exact Or.inl hk
        · exact h.1 z hz'
      · exact ih p h.2 fun q hq => hidx q (List.mem_cons_of_mem y hq)
    · rw [if_neg hk, List.pairwise_cons]
      refine ⟨?_, List.pairwise_cons.mpr h⟩
      intro z hz
      rcases List.mem_cons.mp hz with hz' | hz'
      · rw [hz']
        rcases lt_or_eq_of_le (not_lt.mp hk) with hlt | heq
        · exact Or.inl hlt
        · exact Or.inr ⟨heq.symm, hidx y (List.mem_cons_self y D)⟩
      · rcases h.1 z hz' with hlt | heq
        · exact Or.inl (lt_of_lt_of_le hlt (not_lt.mp hk))
        · rcases lt_or_eq_of_le (not_lt.mp hk) with hlt2 | heq2
          · exact Or.inl (heq.1 ▸ hlt2)
          · exact Or.inr ⟨heq2.symm.trans heq.1, hidx z (List.mem_cons_of_mem y hz')⟩

theorem sortByDesc_pairwise_lex {α : Type} (key : α → ℝ) :
    ∀ (l : List α) (n : Nat),
      (sortByDesc (fun q => key q.2) (l.enumFrom n)).Pairwise
        (fun a b => key b.2 < key a.2 ∨ (key a.2 = key b.2 ∧ a.1 < b.1)) := by
  intro l
  induction l with
  | nil => intro n; simp [sortByDesc]
  | cons x xs ih =>
    intro n
    show (sortByDesc (fun q => key q.2) ((n, x) :: xs.enumFrom (n + 1))).Pairwise _
    unfold sortByDesc
    refine insDesc_pairwise_lex key _ (n, x) (ih (n + 1)) ?_
    intro q hq
    have hmem : q ∈ xs.enumFrom (n + 1) :=
      ((sortByDesc_perm _ _).mem_iff).mp hq
    exact Nat.lt_of_succ_le (mem_enumFrom_le xs (n + 1) q hmem)

theorem mem_keys_iff_lookupA {β : Type} (l : List (String × β)) (t : String) :
    t ∈ l.map Prod.fst ↔ (lookupA t l).isSome := by
  induction l with
  | nil => simp [lookupA]
  | cons kv rest ih =>
    by_cases hk : kv.1 = t
    · simp [lookupA, hk]
    · simp only [List.map_cons, List.mem_cons, lookupA, hk, if_false, ih]
      constructor
      · intro h
        rcases h with h | h
        · exact absurd h.symm hk
        · exact h
      · intro h
        exact Or.inr h

theorem earliestFold_encOpt (bl : String) (ms : List String) :
    ∀ b : Option Nat,
      earliestFold bl ms (encOpt b)
        = encOpt (ms.foldl
            (fun best m =>
              match indexOfSub bl m with
              | some pos =>
                  match best with
                  | none => some pos
                  | some bb => some (min bb pos)
              | none => best)
            b) := by
  induction ms with
  | nil => intro b; rfl
  | cons m ms ih =>
    intro b
    unfold earliestFold at ih ⊢
    rw [List.foldl_cons, List.foldl_cons]
    rcases hidx : indexOfSub bl m with _ | pos
    · simp only [hidx]
      exact ih b
    · simp only [hidx]
      rcases b with _ | bb
      · have : encOpt none = -1 ∨ (pos : Int) < encOpt none ∨ True := Or.inl rfl
        rw [show (if encOpt none = -1 ∨ (pos : Int) < encOpt none then (pos : Int)
              else encOpt none) = encOpt (some pos) from by simp [encOpt]]
        exact ih (some pos)
      · by_cases hlt : pos < bb
        · rw [show (if encOpt (some bb) = -1 ∨ (pos : Int) < encOpt (some bb) then (pos : Int)
                else encOpt (some bb)) = encOpt (some (min bb pos)) from by
              simp only [encOpt]
              rw [if_pos (Or.inr (by exact_mod_cast hlt))]
              simp [min_eq_right (le_of_lt hlt)]]
          exact ih (some (min bb pos))
        · rw [show (if encOpt (some bb) = -1 ∨ (pos : Int) < encOpt (some bb) then (pos : Int)
                else encOpt (some bb)) = encOpt (some (min bb pos)) from by
              simp only [encOpt]
              rw [if_neg]
              · simp [min_eq_left (not_lt.mp hlt)]
              · rintro (hh | hh)
                · omega
                · exact hlt (by exact_mod_cast hh)]
          exact ih (some (min bb pos))

/-- C5 (corrected): at the concrete input body `"hello"` with matched-term
set `{"xyz"}`, no matched term occurs in the body (the case-insensitive
search misses), yet the engine's snippet is `"hello"`, not the empty
string the claim requires. -/
theorem snippet_no_match_counterexample :
    indexOfSub (lowerStr "hello") "xyz" = none ∧ snippetJs "hello" ["xyz"] = "hello" := by
  decide

/-- C5 (amended): the snippet of a surviving result is built from the
body by the claimed window rule — earliest case-insensitive match
position, window of up to 150 characters starting 50 before it, clamped,
with `...` affixes — except that when no matched term occurs in a
non-empty body the window simply starts at position 0 (the `-1` sentinel
clamps to 0) instead of the snippet being empty; an empty body yields an
empty snippet. -/
theorem snippet_window_rule (body : String) (ms : List String) :
    snippetJs body ms = snippetAmended body ms := by
  unfold snippetJs snippetAmended
  by_cases hb : body = ""
  · simp [hb]
  · simp only [hb, if_false]
    have hfp : earliestFold (lowerStr body) ms (-1) = encOpt (earliestMatch body ms) := by
      have h0 := earliestFold_encOpt (lowerStr body) ms none
      simpa [encOpt, earliestMatch] using h0
    rw [hfp]
    rcases hem : earliestMatch body ms with _ | fp
    · norm_num [encOpt]
    · have hst : (max 0 ((fp : Int) - 50)).toNat = fp - 50 := by omega
      rw [show encOpt (some fp) = (fp : Int) from rfl, hst]

/-- C1 (confirmed): for every query over every index, a document's
accumulated score is the sum, over exactly the matched `(term, posting)`
pairs the engine processes for that document, of
`ln((doc_count - df + 0.5)/(df + 0.5) + 1) * ((tf*(k1+1))/(tf + k1*(1 -
b + b*body_length/avg_dl))) * field_boost` with `k1 = 1.2`, `b = 0.75`,
and `field_boost` 10/5/1/1 for Title/Heading/Body/Code; the `df` the
formula uses is the df-map's entry wherever that entry exists and is
non-zero. -/
theorem bm25_score_is_contribution_sum (prefixOn : Bool) (idx : SearchIndex)
    (tokens : List String) (d : Nat) :
    (entryScore (scoresMap prefixOn idx tokens) d
      = (((matchedTermPostings prefixOn idx tokens).filter
            fun tp => tp.2.doc_idx == d).map fun tp =>
              match idx.documents.get? tp.2.doc_idx with
              | none => (0 : ℝ)
              | some doc =>
                  Real.log ((((idx.doc_count : ℚ) - (dfOf idx tp.1 : ℚ) + 0.5) /
                      ((dfOf idx tp.1 : ℚ) + 0.5) + 1 : ℚ) : ℝ) *
                    ((((tp.2.tf : ℚ) * (1.2 + 1)) /
                      ((tp.2.tf : ℚ) + 1.2 * (1 - 0.75 +
                        0.75 * (doc.body.length : ℚ) / idx.avg_dl)) : ℚ) : ℝ) *
                    ((boost tp.2.field : ℚ) : ℝ)).sum)
    ∧ boost Field.title = 10 ∧ boost Field.heading = 5
    ∧ boost Field.body = 1 ∧ boost Field.code = 1
    ∧ (∀ (t : String) (v : Nat), lookupA t idx.df = some v → v ≠ 0 → dfOf idx t = v) := by
  refine ⟨?_, rfl, rfl, rfl, rfl, ?_⟩
  · rw [entryScore_scoresMap]
    rfl
  · intro t v hv hnz
    unfold dfOf
    rw [hv]
    simp [hnz]

/-- Witness for C1: on a concrete index whose df map binds "a" to 2, the
engine's df is that entry. -/
theorem bm25_score_is_contribution_sum_witness :
    dfOf ⟨[], [], [("a", 2)], 0, 0⟩ "a" = 2 :=
  (bm25_score_is_contribution_sum true ⟨[], [], [("a", 2)], 0, 0⟩ [] 0).2.2.2.2.2
    "a" 2 (by decide) (by decide)

/-- C2 (confirmed): the tokenizer equals the single left-to-right
buffered scan the claim describes — word characters `[A-Za-z0-9_]`
accumulate, a CJK/Kana/Hangul character flushes the (lowercased,
non-empty) buffer and is emitted alone, any other character flushes the
buffer and is discarded, end of input flushes — with terms emitted in
scan order and never deduplicated. -/
theorem tokenize_is_buffered_scan (s : String) :
    tokenize s = scanSpec s.data [] := by
  rw [tokenize_eq_flushPair]
  simpa using foldl_tokenStep_eq s.data [] []

/-- C3 (confirmed): a token is matched by prefix expansion — against
every index term it starts — exactly when it is the last token, prefix
matching is on and its length is at least 2 (so a last token of length 1
is never expanded); otherwise it matches only itself, and only when it is
an index term (index keys and successful lookups coincide).  A query
whose tokenization is empty returns the empty result list, in the
options-driven engine and in the embedded client alike. -/
theorem token_matching_policy :
    (∀ (prefixOn : Bool) (idx : SearchIndex) (tok : String) (isLast : Bool) (t : String),
      t ∈ termsForToken prefixOn idx tok isLast ↔
        (if isLast && prefixOn && decide (2 ≤ tok.length) then
          t ∈ idx.index.map Prod.fst ∧ strStartsWith t tok = true
        else t = tok ∧ (lookupA tok idx.index).isSome))
    ∧ (∀ (idx : SearchIndex) (t : String),
        t ∈ idx.index.map Prod.fst ↔ (lookupA t idx.index).isSome)
    ∧ (∀ (idx : SearchIndex) (q : String) (o : SearchOptions),
        tokenize q = [] → searchSpec idx q o = [])
    ∧ (∀ (idx : SearchIndex) (q : String),
        tokenize q = [] → searchJs idx q = []) := by
  refine ⟨?_, ?_, ?_, ?_⟩
  · intro prefixOn idx tok isLast t
    unfold termsForToken
    by_cases hcond : (isLast && prefixOn && decide (2 ≤ tok.length)) = true
    · simp [hcond, List.mem_filter]
    · rcases hs : (lookupA tok idx.index).isSome with _ | _
      · simp [hcond, hs]
      · simp [hcond, hs]
  · intro idx t
    exact mem_keys_iff_lookupA idx.index t
  · intro idx q o h
    unfold searchSpec
    simp [h]
  · intro idx q h
    unfold searchJs
    by_cases ht : strTrim q = ""
    · simp [ht]
    · simp [ht, h]

/-- Witness for C3: a punctuation-only query tokenizes to nothing and
both engines return no results. -/
theorem token_matching_policy_witness :
    searchSpec ⟨[], [], [], 0, 0⟩ "!" defaultSearchOptions = []
      ∧ searchJs ⟨[], [], [], 0, 0⟩ "!" = [] :=
  ⟨token_matching_policy.2.2.1 ⟨[], [], [], 0, 0⟩ "!" defaultSearchOptions (by decide),
   token_matching_policy.2.2.2 ⟨[], [], [], 0, 0⟩ "!" (by decide)⟩

/-- C6 (confirmed): whenever deserialization of the supplied index fails,
the `search_index` entry point returns the empty result list for every
query and options value — the failure is absorbed (the embedding is a
total function, so no abnormal termination is modelled or possible). -/
theorem failed_deserialize_returns_empty (e : String) (q : String)
    (options : Option JsSearchOptions) :
    searchIndexEntry (Except.error e) q options = [] := rfl

/-- C7 (confirmed): for every caller-supplied options record — any of
the 16 present/absent patterns — the conversion substitutes `limit = 10`,
`prefix = true`, `fuzzy = false`, `threshold = 0.0` for exactly the
absent fields and keeps every supplied field unchanged. -/
theorem search_option_defaults (o : JsSearchOptions) :
    searchOptionsFromJs o =
      ⟨match o.limit with | none => 10 | some n => n,
       match o.prefixOn with | none => true | some p => p,
       match o.fuzzy with | none => false | some f => f,
       match o.threshold with | none => 0 | some t => t⟩ := by
  obtain ⟨l, p, f, t⟩ := o
  cases l <;> cases p <;> cases f <;> cases t <;> rfl

/-- C4 (confirmed, spec-modelled engine): the result list is exactly the
threshold-surviving candidates (`keptCands`), stably sorted by score
descending, truncated to `limit` and turned into rows — every returned
row scores at least `threshold`; the rows are in descending score order;
their number is the candidate count capped at `limit`; the rows are the
first `limit` rows of the sorted candidate list, which is a permutation
of the candidates; every candidate the truncation drops scores at most
every returned row (so `limit = 2` over 5 scoring documents returns
exactly the 2 highest-scoring); and the sort is stable: on candidates
decorated with their insertion positions it produces the unique
permutation that is strictly sorted by score descending with ties in
ascending insertion order (and it leaves any already-descending list
unchanged). -/
theorem results_filter_sort_truncate (idx : SearchIndex) (q : String) (o : SearchOptions) :
    (searchSpec idx q o).Forall (fun r => (o.threshold : ℝ) ≤ r.score)
    ∧ (searchSpec idx q o).Pairwise (fun a b => b.score ≤ a.score)
    ∧ (searchSpec idx q o).length = min o.limit (keptCands idx q o).length
    ∧ searchSpec idx q o
        = ((sortByDesc Cand.score (keptCands idx q o)).take o.limit).map resRow
    ∧ (sortByDesc Cand.score (keptCands idx q o)).Perm (keptCands idx q o)
    ∧ ((sortByDesc Cand.score (keptCands idx q o)).drop o.limit).Forall
        (fun cd => (searchSpec idx q o).Forall (fun r => cd.score ≤ r.score))
    ∧ sortByDesc Cand.score (keptCands idx q o)
        = (sortByDesc (fun p => p.2.score) ((keptCands idx q o).enumFrom 0)).map Prod.snd
    ∧ (sortByDesc (fun p => p.2.score) ((keptCands idx q o).enumFrom 0)).Pairwise
        (fun a b => b.2.score < a.2.score ∨ (a.2.score = b.2.score ∧ a.1 < b.1))
    ∧ (sortByDesc (fun p => p.2.score) ((keptCands idx q o).enumFrom 0)).Perm
        ((keptCands idx q o).enumFrom 0)
    ∧ (∀ l : List Cand, l.Pairwise (fun a b => b.score ≤ a.score) →
        sortByDesc Cand.score l = l) := by
  have hrows : searchSpec idx q o
      = ((sortByDesc Cand.score (keptCands idx q o)).take o.limit).map resRow := by
    by_cases htok : tokenize q = []
    · unfold searchSpec keptCands candidatesSpec scoresMap matchedTerms
      simp [htok, sortByDesc]
    · unfold searchSpec keptCands resRow
      rw [if_neg htok]
  refine ⟨?_, ?_, ?_, hrows, sortByDesc_perm Cand.score _, ?_,
    (sortByDesc_enumFrom_snd Cand.score (keptCands idx q o) 0).symm,
    sortByDesc_pairwise_lex Cand.score (keptCands idx q o) 0,
    sortByDesc_perm _ _,
    fun l h => sortByDesc_of_pairwise Cand.score l h⟩
  · rw [hrows, List.forall_iff_forall_mem]
    intro r hr
    rcases List.mem_map.mp hr with ⟨c, hc, hfc⟩
    have hc2 : c ∈ keptCands idx q o :=
      ((sortByDesc_perm Cand.score _).mem_iff).mp (List.mem_of_mem_take hc)
    have hth := (List.mem_filter.mp hc2).2
    rw [← hfc]
    exact of_decide_eq_true hth
  · rw [hrows, List.pairwise_map]
    exact (sortByDesc_pairwise Cand.score _).take
  · rw [hrows, List.length_map, List.length_take,
      (sortByDesc_perm Cand.score _).length_eq]
  · rw [List.forall_iff_forall_mem]
    intro cd hcd
    rw [List.forall_iff_forall_mem]
    intro r hr
    rw [hrows] at hr
    rcases List.mem_map.mp hr with ⟨c, hc, hfc⟩
    have hrel := (sortByDesc_pairwise Cand.score
      (keptCands idx q o)).rel_of_mem_take_of_mem_drop hc hcd
    rw [← hfc]
    exact hrel

/-- Witness for C4: the stable sort leaves a two-element tie in its
original order. -/
theorem results_filter_sort_truncate_witness :
    sortByDesc Cand.score [⟨⟨"a", "", "", ""⟩, 0, []⟩, ⟨⟨"b", "", "", ""⟩, 0, []⟩]
      = [⟨⟨"a", "", "", ""⟩, 0, []⟩, ⟨⟨"b", "", "", ""⟩, 0, []⟩] :=
  (results_filter_sort_truncate ⟨[], [], [], 0, 0⟩ "" defaultSearchOptions).2.2.2.2.2.2.2.2.2
    [⟨⟨"a", "", "", ""⟩, 0, []⟩, ⟨⟨"b", "", "", ""⟩, 0, []⟩]
    (by simp [List.pairwise_cons])

/-- C8 (corrected): counterexample — for the source
`"---\ntitle:\n---\n# Hello"` the frontmatter title is present but empty,
and the extracted title is the empty override, not the first-heading
title `"Hello"` the claim requires. -/
theorem frontmatter_empty_title_counterexample :
    frontmatterTitle "---\ntitle:\n---\n# Hello" = some ""
      ∧ extractTitle "---\ntitle:\n---\n# Hello" (some "Hello") = "" := by
  constructor
  · decide
  · decide

/-- C8 (amended): the extracted title is the frontmatter `title` override
whenever that override is present as a string — even when it is empty —
and only in its absence the first heading's text (empty when there is
none). -/
theorem frontmatter_title_precedence (source : String) (indexerTitle : Option String) :
    (∀ s, frontmatterTitle source = some s → extractTitle source indexerTitle = s)
    ∧ (frontmatterTitle source = none
        → extractTitle source indexerTitle = indexerTitle.getD "") := by
  constructor
  · intro s h
    unfold extractTitle
    rw [h]
    rfl
  · intro h
    unfold extractTitle
    rw [h]
    rfl

/-- Witness for C8: a present frontmatter title wins; without frontmatter
the heading title is used. -/
theorem frontmatter_title_precedence_witness :
    extractTitle "---\ntitle: My Doc\n---\nx" none = "My Doc"
      ∧ extractTitle "# Hi" (some "Hi") = "Hi" :=
  ⟨(frontmatter_title_precedence "---\ntitle: My Doc\n---\nx" none).1 "My Doc" (by decide),
   (frontmatter_title_precedence "# Hi" (some "Hi")).2 (by decide)⟩

/-- C10 (confirmed): the scoring loop tolerates inconsistent index maps —
a term with no df entry is scored with `df = 1` (as is a zero entry,
which the JS `||` also replaces), and a posting whose `doc_idx` lies
outside the documents array leaves the accumulator untouched; the
embedded engine is a total function, so neither case can fail. -/
theorem df_fallback_and_missing_doc_skip :
    (∀ (idx : SearchIndex) (t : String), lookupA t idx.df = none → dfOf idx t = 1)
    ∧ (∀ (idx : SearchIndex) (term : String) (idf : ℝ) (acc : List (Nat × Entry))
        (p : Posting), idx.documents.length ≤ p.doc_idx → scoreStep idx term idf acc p = acc) := by
  constructor
  · intro idx t h
    unfold dfOf
    rw [h]
  · intro idx term idf acc p h
    unfold scoreStep
    rw [List.get?_eq_none.mpr h]

/-- Witness for C10: a term absent from an empty df map scores with
`df = 1`, and a posting pointing past an empty documents array is a
no-op. -/
theorem df_fallback_and_missing_doc_skip_witness :
    dfOf ⟨[], [], [], 0, 0⟩ "x" = 1
      ∧ scoreStep ⟨[], [], [], 0, 0⟩ "x" 0 [] ⟨3, Field.body, 1⟩ = [] :=
  ⟨df_fallback_and_missing_doc_skip.1 ⟨[], [], [], 0, 0⟩ "x" (by decide),
   df_fallback_and_missing_doc_skip.2 ⟨[], [], [], 0, 0⟩ "x" 0 [] ⟨3, Field.body, 1⟩
     (by decide)⟩

theorem c9_len17 : ("run the installer" : String).length = 17 := by decide

theorem c9_len26 : ("install dependencies first" : String).length = 26 := by decide

theorem c9_build : buildIndex [docA, docB] = c9Idx := by
  unfold buildIndex c9Idx
  rw [SearchIndex.mk.injEq]
  refine ⟨by decide, by decide, by decide, by decide, ?_⟩
  simp only [docA, docB, List.map_cons, List.map_nil, List.length_cons, List.length_nil,
    List.sum_cons, List.sum_nil, c9_len17, c9_len26]
  norm_num

theorem c9_dfa : dfOf c9Idx "install" = 2 := by decide

theorem c9_dfb : dfOf c9Idx "installer" = 1 := by decide

theorem c9_ia1 : idfArg c9Idx "install" = 6 / 5 := by
  unfold idfArg
  rw [c9_dfa, show c9Idx.doc_count = 2 from rfl]
  norm_num

theorem c9_ia2 : idfArg c9Idx "installer" = 2 := by
  unfold idfArg
  rw [c9_dfb, show c9Idx.doc_count = 2 from rfl]
  norm_num

theorem c9_tfa : tfComp c9Idx.avg_dl ("run the installer" : String).length 1 = 946 / 865 := by
  unfold tfComp k1 bParam
  rw [c9_len17, show c9Idx.avg_dl = (43 : ℚ) / 2 from rfl]
  norm_num

theorem c9_tfb : tfComp c9Idx.avg_dl ("install dependencies first" : String).length 1
    = 946 / 1027 := by
  unfold tfComp k1 bParam
  rw [c9_len26, show c9Idx.avg_dl = (43 : ℚ) / 2 from rfl]
  norm_num

theorem c9_get0 : c9Idx.documents.get? 0
    = some ⟨"a", "Install Guide", "/a", "run the installer"⟩ := by decide

theorem c9_get1 : c9Idx.documents.get? 1
    = some ⟨"b", "Overview", "/b", "install dependencies first"⟩ := by decide

theorem c9_score0 : entryScore (scoresMap true c9Idx ["install"]) 0
    = Real.log ((6 : ℝ) / 5) * (946 / 865) * 10 + Real.log 2 * (946 / 865) := by
  rw [entryScore_scoresMap]
  have hfil : (matchedTermPostings true c9Idx ["install"]).filter
      (fun tp => tp.2.doc_idx == 0)
      = [("install", ⟨0, Field.title, 1⟩), ("installer", ⟨0, Field.body, 1⟩)] := by decide
  rw [hfil]
  simp only [List.map_cons, List.map_nil, List.sum_cons, List.sum_nil, contrib, postContrib,
    idfOf, c9_get0, boost, c9_tfa, c9_ia1, c9_ia2]
  push_cast
  norm_num

theorem c9_score1 : entryScore (scoresMap true c9Idx ["install"]) 1
    = Real.log ((6 : ℝ) / 5) * (946 / 1027) := by
  rw [entryScore_scoresMap]
  have hfil : (matchedTermPostings true c9Idx ["install"]).filter
      (fun tp => tp.2.doc_idx == 1)
      = [("install", ⟨1, Field.body, 1⟩)] := by decide
  rw [hfil]
  simp only [List.map_cons, List.map_nil, List.sum_cons, List.sum_nil, contrib, postContrib,
    idfOf, c9_get1, boost, c9_tfb, c9_ia1]
  push_cast
  norm_num

/-- C9 (confirmed): on the two-document corpus of §8 the query "install"
with the embedded client's defaults returns both documents with document
"a" (term in the title, boost 10) strictly above document "b" (term only
in the body). -/
theorem install_query_ranks_title_first :
    ((searchJs (buildIndex [docA, docB]) "install").map ResultJs.id = ["a", "b"])
    ∧ (searchJs (buildIndex [docA, docB]) "install").Pairwise
        (fun x y => y.score < x.score) := by
  rw [c9_build]
  obtain ⟨eA, eB, hAB⟩ :
      ∃ a b, scoresMap true c9Idx ["install"] = [(0, a), (1, b)] := ⟨_, _, rfl⟩
  have hms : (scoresMap true c9Idx ["install"]).map (fun kv => kv.2.matchSet)
      = [["install", "installer"], ["install"]] := by decide
  rw [hAB] at hms
  simp only [List.map_cons, List.map_nil, List.cons.injEq, and_true] at hms
  obtain ⟨hm1, hm2⟩ := hms
  have hs0 : eA.score = Real.log ((6 : ℝ) / 5) * (946 / 865) * 10 + Real.log 2 * (946 / 865) := by
    have h := c9_score0
    rw [hAB] at h
    simpa [entryScore, lookupN] using h
  have hs1 : eB.score = Real.log ((6 : ℝ) / 5) * (946 / 1027) := by
    have h := c9_score1
    rw [hAB] at h
    simpa [entryScore, lookupN] using h
  have hlt : eB.score < eA.score := by
    rw [hs0, hs1]
    have l1 : 0 < Real.log ((6 : ℝ) / 5) := Real.log_pos (by norm_num)
    have l2 : 0 < Real.log (2 : ℝ) := Real.log_pos (by norm_num)
    nlinarith [l1, l2]
  have hres : entryResults c9Idx (scoresMap true c9Idx ["install"])
      = [⟨"a", "Install Guide", "/a", "run the installer", eA.score,
            snippetJs "run the installer" eA.matchSet⟩,
         ⟨"b", "Overview", "/b", "install dependencies first", eB.score,
            snippetJs "install dependencies first" eB.matchSet⟩] := by
    rw [hAB]
    rfl
  have hsj : searchJs c9Idx "install"
      = (sortByDesc ResultJs.score
          (entryResults c9Idx (scoresMap true c9Idx ["install"]))).take 10 := by
    have hne1 : ¬ (strTrim "install" = "") := by decide
    have hne2 : ¬ ((["install"] : List String) = []) := by decide
    have htok : tokenize "install" = ["install"] := by decide
    simp only [searchJs, htok, if_neg hne1, if_neg hne2]
  rw [hsj, hres, hm1, hm2]
  have hsort : sortByDesc ResultJs.score
      [(⟨"a", "Install Guide", "/a", "run the installer", eA.score,
          snippetJs "run the installer" ["install", "installer"]⟩ : ResultJs),
       ⟨"b", "Overview", "/b", "install dependencies first", eB.score,
          snippetJs "install dependencies first" ["install"]⟩]
      = [⟨"a", "Install Guide", "/a", "run the installer", eA.score,
          snippetJs "run the installer" ["install", "installer"]⟩,
         ⟨"b", "Overview", "/b", "install dependencies first", eB.score,
          snippetJs "install dependencies first" ["install"]⟩] := by
    simp only [sortByDesc, insDesc]
    rw [if_neg (by simpa using not_lt.mpr (le_of_lt hlt))]
  rw [hsort, List.take_of_length_le (by simp)]
  refine ⟨rfl, ?_⟩
  refine List.Pairwise.cons ?_ (List.Pairwise.cons (by simp) List.Pairwise.nil)
  intro y hy
  have hy2 := List.mem_singleton.mp hy
  subst hy2
  simpa using hlt

end OxContent
